import Mathlib

/-!
Verification of the multi-bet combination engine (`src/logic.py`, `src/app.py`).

This file gives a shallow embedding of the betting-combination search engine:
the backtracking search `backtrack`, the ranking / selection pipeline
`find_multi_combination`, the substitute finder `find_player_alternatives`,
and the request-validation gate of the HTTP handler `generate_multi`.

Numeric values (odds, targets, tolerances) are embedded as exact rationals.
The Python source computes with floats; we model the intended real-number
arithmetic exactly.  To keep every definition kernel-executable we use our
own fraction type `Q` (integer numerator, positive denominator, no
normalisation): all of its operations reduce by `decide` / `rfl`, which
Mathlib's `ℚ` (whose normalisation goes through well-founded recursion)
does not.

Randomness (`random.shuffle`, `random.random() < 0.5`, `random.choice`) is
modelled by an explicit entropy stream (`List ℕ`) threaded through the
computation; the wall-clock check at every recursive entry is modelled by a
stream of booleans (`List Bool`), one consumed per entry, an arbitrary
monotone "clock has expired" oracle.  All theorems quantify over both
streams, so they hold for every random sequence and every timing pattern.
-/

/-! ## Exact fractions -/

/-- An exact fraction: integer numerator over a positive natural
denominator, not normalised.  Stands for the real number `num / den`. -/
structure Q where
  num : Int
  den : Nat
  den_pos : 0 < den

instance : DecidableEq Q := fun a b =>
  decidable_of_iff (a.num = b.num ∧ a.den = b.den)
    (by cases a; cases b; simp)

instance (n : Nat) : OfNat Q n := ⟨⟨n, 1, Nat.one_pos⟩⟩

def Q.add (x y : Q) : Q :=
  ⟨x.num * y.den + y.num * x.den, x.den * y.den, Nat.mul_pos x.den_pos y.den_pos⟩

def Q.neg (x : Q) : Q := ⟨-x.num, x.den, x.den_pos⟩

def Q.mul (x y : Q) : Q :=
  ⟨x.num * y.num, x.den * y.den, Nat.mul_pos x.den_pos y.den_pos⟩

/-- The reciprocal: `1 / (n/d) = d / n`, sign moved to the numerator.
The reciprocal of zero is zero (the source never divides by zero on the
paths we verify; hypotheses rule it out where it matters). -/
def Q.inv (x : Q) : Q :=
  if h : x.num = 0 then ⟨0, 1, Nat.one_pos⟩
  else if 0 < x.num then ⟨x.den, x.num.natAbs, Int.natAbs_pos.mpr h⟩
  else ⟨-(x.den : Int), x.num.natAbs, Int.natAbs_pos.mpr h⟩

def Q.sub (x y : Q) : Q := x.add y.neg

def Q.div (x y : Q) : Q := x.mul y.inv

def Q.abs (x : Q) : Q := ⟨|x.num|, x.den, x.den_pos⟩

instance : Add Q := ⟨Q.add⟩
instance : Neg Q := ⟨Q.neg⟩
instance : Sub Q := ⟨Q.sub⟩
instance : Mul Q := ⟨Q.mul⟩
instance : Div Q := ⟨Q.div⟩

def Q.pow (x : Q) : Nat → Q
  | 0 => 1
  | n + 1 => x.mul (x.pow n)

instance : Pow Q Nat := ⟨Q.pow⟩

/-- `x ≤ y` as fractions with positive denominators: cross-multiplied. -/
instance : LE Q := ⟨fun x y => x.num * (y.den : Int) ≤ y.num * (x.den : Int)⟩

instance : LT Q := ⟨fun x y => x.num * (y.den : Int) < y.num * (x.den : Int)⟩

instance (x y : Q) : Decidable (x ≤ y) :=
  inferInstanceAs (Decidable (x.num * (y.den : Int) ≤ y.num * (x.den : Int)))

instance (x y : Q) : Decidable (x < y) :=
  inferInstanceAs (Decidable (x.num * (y.den : Int) < y.num * (x.den : Int)))

/-! ## Data model (`src/logic.py`, `src/data_loader.py`)

A bet record carries the fields `logic.py` reads: `playerId`, `market`,
`gameId` and `odds`.  Descriptive metadata (`playerName`, `team`,
`gameDescription`, `sport`) never influences control flow and is omitted.
The catalog `bets_by_game` is a Python dict (insertion-ordered, unique
keys); we embed it as an association list. -/

structure Bet where
  playerId : String
  market : String
  gameId : String
  odds : Q
deriving DecidableEq

/-- `bets_by_game[g]`: the bets of game `g` (first binding of `g` in the
association list; the dict's keys are unique). -/
def lookupGame (catalog : List (String × List Bet)) (g : String) : List Bet :=
  match catalog.find? (fun e => e.1 == g) with
  | some e => e.2
  | none => []

/-! ## Constants (`logic.py` lines 6-24) -/

def ODDS_TOLERANCE : Q := 1/100

def MIN_LEGS : Nat := 2

def MAX_LEGS : Nat := 8

def MAX_COMBINED_LEGS : Nat := 17

def MAX_ALTERNATIVES : Nat := 5

def MAX_PLAYER_ALTERNATIVES : Nat := 3

/-! ## One-bet-per-game check and repair (`logic.py` lines 264-288) -/

def verifyGo : List String → List Bet → Bool
  | _, [] => true
  | seen, b :: bs => if b.gameId ∈ seen then false else verifyGo (b.gameId :: seen) bs

/-- `verify_one_bet_per_game`: true when no two bets share a game identifier. -/
def verify_one_bet_per_game (bets : List Bet) : Bool := verifyGo [] bets

def fixGo : List String → List Bet → List Bet
  | _, [] => []
  | seen, b :: bs =>
    if b.gameId ∈ seen then fixGo seen bs
    else b :: fixGo (b.gameId :: seen) bs

/-- `fix_multi_bets_same_game`: keep the first bet encountered per game. -/
def fix_multi_bets_same_game (bets : List Bet) : List Bet := fixGo [] bets

/-! ## The random source

`random.shuffle` is modelled as an entropy-driven permutation: each step
consumes one natural from the stream and rotates the remainder by it,
picking the new head.  Every permutation of the input is reachable for a
suitable stream, and the output is a permutation of the input for every
stream.  `random.random() < 0.5` is modelled as one draw from the same
stream, tested for evenness. -/

def shuffleGo {α : Type} : Nat → List Nat → List α → List α × List Nat
  | 0, e, l => (l, e)
  | _ + 1, e, [] => ([], e)
  | fuel + 1, e, y :: ys =>
    let r := (y :: ys).rotate ((e.headD 0) % (ys.length + 1))
    let s := shuffleGo fuel e.tail r.tail
    (r.headD y :: s.1, s.2)

def shuffle {α : Type} (e : List Nat) (l : List α) : List α × List Nat :=
  shuffleGo l.length e l

/-! ## The backtracking search (`logic.py` lines 79-169)

State captured by the Python closure: the candidate list `all_solutions`
(a solution is `(selection, |product - target|, product)`), the counter
`solutions_found`, the flag `time_limit_exceeded`, plus our explicit
entropy stream and clock oracle.  The `trace` field is ghost
instrumentation: it records, newest first, which branch the search
explored at each game node (reaching the branching point of a game,
skipping a game, trying a bet) and affects nothing else; it lets
exploration claims be stated. -/

inductive TraceEv where
  | visit (g : String)
  | skip (g : String)
  | tryBet (g : String) (b : Bet)
deriving DecidableEq

structure SearchState where
  entropy : List Nat
  timeFlags : List Bool
  timeLimitExceeded : Bool
  solutions : List (List Bet × Q × Q)
  solutionsFound : Nat
  trace : List TraceEv
deriving DecidableEq

/-- The parameters the recursive search closes over: the catalog, the
target odds, `num_alternatives * 2` (the raw-candidate cap checked by
`solutions_found >= num_alternatives * 2`) and the mode's leg ceiling. -/
structure SearchParams where
  catalog : List (String × List Bet)
  target : Q
  cap : Nat
  maxLegs : Nat

/-- `time_limit_exceeded or solutions_found >= num_alternatives * 2`
(`logic.py` lines 147 and 164). -/
def stopNow (p : SearchParams) (st : SearchState) : Bool :=
  st.timeLimitExceeded || decide (p.cap ≤ st.solutionsFound)

/-- The wall-clock poll at a recursive entry (`logic.py` line 88): one
draw from the clock oracle; the clock is monotone, so once exceeded it
stays exceeded. -/
def drawClock (st : SearchState) : SearchState :=
  { st with timeFlags := st.timeFlags.tail,
            timeLimitExceeded := st.timeLimitExceeded || st.timeFlags.headD false }

/-- The `for bet in game_bets:` loop (`logic.py` lines 155-165): `recur`
is the recursive call on the games after `g`.  The loop body is skipped
for a bet once `time_limit_exceeded or solutions_found >= cap` holds
(Python breaks out of the loop; the remaining iterations leave the state
unchanged, which is the same final state).  A bet with non-positive odds
is skipped (`continue`). -/
def tryBets (p : SearchParams) (recur : Q → List Bet → SearchState → SearchState)
    (g : String) : List Bet → Q → List Bet → SearchState → SearchState
  | [], _, _, st => st
  | b :: bs, prod, sel, st =>
    if stopNow p st then st
    else if b.odds ≤ 0 then tryBets p recur g bs prod sel st
    else
      let st' := recur (prod * b.odds) (sel ++ [b])
        { st with trace := TraceEv.tryBet g b :: st.trace }
      tryBets p recur g bs prod sel st'

/-- `backtrack(game_idx, current_product, current_selection)`
(`logic.py` lines 79-165), with `remaining` the suffix of the shuffled
game list from `game_idx` on.  Checks in source order: the wall clock,
the raw-candidate cap, the leg ceiling, tight-tolerance acceptance
(`math.isclose(..., rel_tol=0, abs_tol=ODDS_TOLERANCE)`), exhaustion of
the game list (fallback 20% acceptance), the large-target prune, the 10%
overshoot prune; then the skip branch when the coin allows it, and the
per-bet branches. -/
def backtrack (p : SearchParams) : List String → Q → List Bet → SearchState → SearchState
  | remaining, prod, sel, st0 =>
  let st := drawClock st0
  if st.timeLimitExceeded then st
  else if p.cap ≤ st.solutionsFound then st
  else if p.maxLegs < sel.length then st
  else if MIN_LEGS ≤ sel.length ∧ (prod - p.target).abs ≤ ODDS_TOLERANCE then
    if verify_one_bet_per_game sel then
      { st with solutions := st.solutions ++ [(sel, (prod - p.target).abs, prod)],
                solutionsFound := st.solutionsFound + 1 }
    else st
  else
    match remaining with
    | [] =>
      if MIN_LEGS ≤ sel.length ∧ verify_one_bet_per_game sel ∧
          (prod - p.target).abs / p.target ≤ 1/5 then
        { st with solutions := st.solutions ++ [(sel, (prod - p.target).abs, prod)],
                  solutionsFound := st.solutionsFound + 1 }
      else st
    | g :: rest =>
      if 50 < p.target ∧ prod * (5 : Q) ^ (rest.length + 1) < p.target * (1/2) then st
      else if p.target * (11/10) < prod ∧ 0 < p.target then st
      else
        let st1 : SearchState := { st with trace := TraceEv.visit g :: st.trace }
        let c := (st1.entropy.headD 0) % 2 == 0
        let st2 : SearchState := { st1 with entropy := st1.entropy.tail }
        let st3 := if c then
            backtrack p rest prod sel { st2 with trace := TraceEv.skip g :: st2.trace }
          else st2
        if stopNow p st3 then st3
        else
          let s4 := shuffle st3.entropy (lookupGame p.catalog g)
          tryBets p (fun pr se s => backtrack p rest pr se s) g s4.1 prod sel
            { st3 with entropy := s4.2 }

/-! ## Ranking, filtering and selection (`logic.py` lines 171-204) -/

/-- `math.prod(leg['odds'] for leg in solution)`. -/
def prodOdds (l : List Bet) : Q := l.foldl (fun a b => a * b.odds) 1

/-- `all_solutions.sort(key=lambda x: x[1])` (line 175): Python's sort is
stable, and a stable sort by a total preorder is functionally unique, so
insertion sort embeds it faithfully. -/
def sortByDiff (l : List (List Bet × Q × Q)) : List (List Bet × Q × Q) :=
  l.insertionSort (fun a b => a.2.1 ≤ b.2.1)

/-- The processing loop over `all_solutions[:num_alternatives * 2]`
(lines 181-190): repair a selection that fails the one-bet-per-game check,
then keep it only when its leg count is within bounds and its recomputed
odds product is within 10% relative distance of target. -/
def processSolutions (target : Q) (maxLegs : Nat) :
    List (List Bet × Q × Q) → List (List Bet)
  | [] => []
  | (sol, _, _) :: rest =>
    let sol' := if verify_one_bet_per_game sol then sol
                else fix_multi_bets_same_game sol
    if MIN_LEGS ≤ sol'.length ∧ sol'.length ≤ maxLegs ∧
        (prodOdds sol' - target).abs / target ≤ 1/10 then
      sol' :: processSolutions target maxLegs rest
    else processSolutions target maxLegs rest

/-- `MAX_COMBINED_LEGS if sport_type == 'combined' else MAX_LEGS` (line 49). -/
def maxLegsFor (sportType : String) : Nat :=
  if sportType == "combined" then MAX_COMBINED_LEGS else MAX_LEGS

/-- The state after `backtrack(0, 1.0, [])` returns: the game order is
shuffled (line 53), then the search runs from product `1.0` and the empty
selection (line 169). -/
def searchOutcome (catalog : List (String × List Bet)) (target : Q)
    (numAlternatives : Nat) (sportType : String) (entropy : List Nat)
    (timeFlags : List Bool) : SearchState :=
  let sh := shuffle entropy (catalog.map Prod.fst)
  backtrack ⟨catalog, target, numAlternatives * 2, maxLegsFor sportType⟩ sh.1 1 []
    ⟨sh.2, timeFlags, false, [], 0, []⟩

/-- `valid_solutions` (lines 174-190): the raw candidates sorted by
distance, truncated to `num_alternatives * 2`, then filtered. -/
def validSolutions (catalog : List (String × List Bet)) (target : Q)
    (numAlternatives : Nat) (sportType : String) (entropy : List Nat)
    (timeFlags : List Bool) : List (List Bet) :=
  processSolutions target (maxLegsFor sportType)
    ((sortByDiff (searchOutcome catalog target numAlternatives sportType entropy
        timeFlags).solutions).take (numAlternatives * 2))

/-- `random.choice(valid_solutions[:selection_count])` with
`selection_count = min(3, len(valid_solutions))` (lines 198-199): the
uniform choice is modelled as indexing by an entropy draw modulo the
number of eligible candidates. -/
def selectFrom (valid : List (List Bet)) (r : Nat) : List Bet :=
  let selectionCount := min 3 valid.length
  (valid.take selectionCount).getD (r % selectionCount) []

/-! ## The alternative finder (`logic.py` lines 206-262) -/

/-- `alt_bet.copy()` plus the two annotations added at lines 251-252. -/
structure AltEntry where
  bet : Bet
  expectedMultiOdds : Q
  expectedDiff : Q
deriving DecidableEq

/-- The scan of game `g`'s bets for position holder `b` (lines 229-253):
skip the bet already in the multi (matched by `playerId` and `market`),
keep an alternative exactly when `alt.odds / required` lies in
`[0.8, 1.2]` where `required = target / (total / b.odds)`, and annotate
it with the hypothetical new total odds and its distance from target. -/
def positionAlternatives (catalog : List (String × List Bet))
    (target total : Q) (b : Bet) : List AltEntry :=
  let required := target / (total / b.odds)
  ((lookupGame catalog b.gameId).filter (fun alt =>
      decide (¬(alt.playerId = b.playerId ∧ alt.market = b.market)) &&
      decide ((4 : Q)/5 ≤ alt.odds / required) &&
      decide (alt.odds / required ≤ (6 : Q)/5))).map
    (fun alt => ⟨alt, (total / b.odds) * alt.odds,
                 ((total / b.odds) * alt.odds - target).abs⟩)

/-- `find_player_alternatives(main_multi, bets_by_game, target_odds)`
(lines 206-262): for each position, sort its accepted alternatives
ascending by `expectedDiff` and keep at most `MAX_PLAYER_ALTERNATIVES`;
a position with no accepted alternative is absent from the mapping. -/
def find_player_alternatives (mainMulti : List Bet)
    (catalog : List (String × List Bet)) (target : Q) :
    List (Nat × List AltEntry) :=
  let mainOdds := prodOdds mainMulti
  mainMulti.enum.filterMap (fun ib =>
    let pa := (positionAlternatives catalog target mainOdds ib.2).insertionSort
        (fun x y => x.expectedDiff ≤ y.expectedDiff)
    if pa.isEmpty then none else some (ib.1, pa.take MAX_PLAYER_ALTERNATIVES))

/-- `find_multi_combination(bets_by_game, target_odds, num_alternatives,
sport_type)` (lines 26-204): run the search, rank and filter, return
`([], {})` when nothing survives, otherwise pick among the top 3 and
attach the per-position alternatives. -/
def find_multi_combination (catalog : List (String × List Bet)) (target : Q)
    (numAlternatives : Nat) (sportType : String) (entropy : List Nat)
    (timeFlags : List Bool) : List Bet × List (Nat × List AltEntry) :=
  let vs := validSolutions catalog target numAlternatives sportType entropy timeFlags
  if vs.isEmpty then ([], [])
  else
    let best := selectFrom vs
      ((searchOutcome catalog target numAlternatives sportType entropy
          timeFlags).entropy.headD 0)
    (best, find_player_alternatives best catalog target)

/-! ## The request-validation gate (`src/app.py` lines 42-51) -/

/-- The numeric validation the handler `generate_multi` performs before
the search, on the already-parsed `stake` and `winAmount` (a non-numeric
body fails `float(...)` and is rejected with a client error even
earlier): `some target` when the handler goes on to invoke the search
core with that derived target, `none` when the request is rejected with
a client error before any search. -/
def generate_multi_gate (stake winAmount : Q) : Option Q :=
  if stake ≤ 0 ∨ winAmount ≤ stake then none
  else if (1000 : Q) < winAmount / stake then none
  else some (winAmount / stake)

/-- The processing loop of `find_multi_combination` (lines 181-190) with
the defensive repair branch (`if not verify: solution =
fix_multi_bets_same_game(solution)`) removed: used to state that the
repair is unreachable. -/
def processSolutionsNoRepair (target : Q) (maxLegs : Nat) :
    List (List Bet × Q × Q) → List (List Bet)
  | [] => []
  | (sol, _, _) :: rest =>
    if MIN_LEGS ≤ sol.length ∧ sol.length ≤ maxLegs ∧
        (prodOdds sol - target).abs / target ≤ 1/10 then
      sol :: processSolutionsNoRepair target maxLegs rest
    else processSolutionsNoRepair target maxLegs rest

/-- Every selection in a state's candidate list passes the
one-bet-per-game check. -/
def solsVerified (st : SearchState) : Prop :=
  ∀ s ∈ st.solutions, verify_one_bet_per_game s.1 = true

/-! ## Concrete fixtures used by witness theorems -/

def betA : Bet := ⟨"pA", "ATS", "g1", 2⟩

def betX : Bet := ⟨"pX", "ATS", "g1", (21 : Q)/10⟩

def catAX : List (String × List Bet) := [("g1", [betA, betX])]

def betB : Bet := ⟨"pB", "ATS", "g2", 3⟩

def cat2demo : List (String × List Bet) := [("g1", [betA]), ("g2", [betB])]

/-! ## Order lemmas for the exact fractions -/

theorem Q.le_def {x y : Q} : x ≤ y ↔ x.num * (y.den : Int) ≤ y.num * (x.den : Int) :=
  Iff.rfl

theorem Q.lt_def {x y : Q} : x < y ↔ x.num * (y.den : Int) < y.num * (x.den : Int) :=
  Iff.rfl

theorem Q.le_total (x y : Q) : x ≤ y ∨ y ≤ x :=
  Int.le_total _ _

theorem Q.le_trans {x y z : Q} (hxy : x ≤ y) (hyz : y ≤ z) : x ≤ z := by
  rw [Q.le_def] at hxy hyz ⊢
  have hy : (0 : Int) < y.den := Int.natCast_pos.mpr y.den_pos
  have h1 := mul_le_mul_of_nonneg_right hxy (Int.natCast_nonneg z.den)
  have h2 := mul_le_mul_of_nonneg_right hyz (Int.natCast_nonneg x.den)
  have : x.num * z.den * y.den ≤ z.num * x.den * y.den := by nlinarith
  exact le_of_mul_le_mul_right this hy

/-! ## Basic lemmas about `Q` and the one-bet-per-game check -/

theorem Q.zero_lt_iff {x : Q} : 0 < x ↔ 0 < x.num := by
  rw [Q.lt_def]
  show (0 : Int) * (x.den : Int) < x.num * ((1 : Nat) : Int) ↔ _
  simp

theorem Q.le_zero_iff {x : Q} : x ≤ 0 ↔ x.num ≤ 0 := by
  rw [Q.le_def]
  show x.num * ((1 : Nat) : Int) ≤ (0 : Int) * (x.den : Int) ↔ _
  simp

/-- `verifyGo seen l` succeeds exactly when `l`'s game identifiers avoid
`seen` and are pairwise distinct. -/
theorem verifyGo_eq_true_iff : ∀ (l : List Bet) (seen : List String),
    verifyGo seen l = true ↔
      (∀ b ∈ l, b.gameId ∉ seen) ∧ l.Pairwise (fun a b => a.gameId ≠ b.gameId) := by
  intro l
  induction l with
  | nil => intro seen; simp [verifyGo]
  | cons b bs ih =>
    intro seen
    by_cases hmem : b.gameId ∈ seen
    · simp only [verifyGo, if_pos hmem, Bool.false_eq_true, false_iff, not_and]
      intro hall
      exact absurd hmem (hall b (List.mem_cons_self b bs))
    · simp only [verifyGo, if_neg hmem, ih (b.gameId :: seen),
        List.pairwise_cons, List.mem_cons]
      constructor
      · rintro ⟨hall, hpw⟩
        refine ⟨?_, ?_, hpw⟩
        · rintro x (rfl | hx)
          · exact hmem
          · exact fun hs => (hall x hx) (Or.inr hs)
        · intro x hx heq
          exact (hall x hx) (Or.inl heq.symm)
      · rintro ⟨hall, hne, hpw⟩
        refine ⟨?_, hpw⟩
        intro x hx
        rintro (heq | hs)
        · exact (hne x hx) heq.symm
        · exact (hall x (Or.inr hx)) hs

/-- `verify_one_bet_per_game` is exactly pairwise distinctness of game
identifiers. -/
theorem verify_one_bet_per_game_iff (l : List Bet) :
    verify_one_bet_per_game l = true ↔
      l.Pairwise (fun a b => a.gameId ≠ b.gameId) := by
  rw [verify_one_bet_per_game, verifyGo_eq_true_iff]
  simp

theorem fixGo_gameId_and_pairwise : ∀ (l : List Bet) (seen : List String),
    (∀ b ∈ fixGo seen l, b.gameId ∉ seen) ∧
      (fixGo seen l).Pairwise (fun a b => a.gameId ≠ b.gameId) := by
  intro l
  induction l with
  | nil => intro seen; simp [fixGo]
  | cons b bs ih =>
    intro seen
    by_cases hmem : b.gameId ∈ seen
    · simpa [fixGo, if_pos hmem] using ih seen
    · have ih' := ih (b.gameId :: seen)
      simp only [fixGo, if_neg hmem]
      refine ⟨?_, ?_⟩
      · rintro x hx
        rcases List.mem_cons.mp hx with rfl | hx'
        · exact hmem
        · exact fun hs => (ih'.1 x hx') (List.mem_cons_of_mem _ hs)
      · rw [List.pairwise_cons]
        refine ⟨?_, ih'.2⟩
        intro x hx heq
        exact (ih'.1 x hx) (heq ▸ List.mem_cons_self _ _)

/-- The repair always produces a selection that passes the check. -/
theorem verify_fix (l : List Bet) :
    verify_one_bet_per_game (fix_multi_bets_same_game l) = true := by
  rw [verify_one_bet_per_game, verifyGo_eq_true_iff]
  exact ⟨(fixGo_gameId_and_pairwise l []).1, (fixGo_gameId_and_pairwise l []).2⟩

/-! ## Properties of the final filter and the top-3 selection -/

/-- Everything the final filter lets through is verified, has its leg
count within `[MIN_LEGS, maxLegs]`, and its recomputed odds product
within 10% relative distance of target. -/
theorem processSolutions_mem {target : Q} {maxLegs : Nat} :
    ∀ (L : List (List Bet × Q × Q)) (sol : List Bet),
      sol ∈ processSolutions target maxLegs L →
        verify_one_bet_per_game sol = true ∧
        MIN_LEGS ≤ sol.length ∧ sol.length ≤ maxLegs ∧
        (prodOdds sol - target).abs / target ≤ 1/10 := by
  intro L
  induction L with
  | nil => intro sol h; cases h
  | cons hd tl ih =>
    intro sol h
    obtain ⟨s, d, pr⟩ := hd
    by_cases hv : verify_one_bet_per_game s = true
    · simp only [processSolutions, if_pos hv] at h
      split at h
      · rcases List.mem_cons.mp h with rfl | h'
        · next hcond => exact ⟨hv, hcond⟩
        · exact ih sol h'
      · exact ih sol h
    · simp only [processSolutions, if_neg hv] at h
      split at h
      · rcases List.mem_cons.mp h with rfl | h'
        · next hcond => exact ⟨verify_fix s, hcond⟩
        · exact ih sol h'
      · exact ih sol h

/-- The randomized top-3 choice always lands inside the first three
filtered candidates. -/
theorem selectFrom_mem_take (valid : List (List Bet)) (r : Nat)
    (hne : valid ≠ []) : selectFrom valid r ∈ valid.take 3 := by
  have hlen : 0 < valid.length := List.length_pos.mpr hne
  have hk : 0 < min 3 valid.length := lt_min (by omega) hlen
  have hidx : r % min 3 valid.length < min 3 valid.length := Nat.mod_lt _ hk
  have hlt : r % min 3 valid.length < (valid.take (min 3 valid.length)).length := by
    rw [List.length_take]
    exact lt_min hidx (lt_of_lt_of_le hidx (min_le_right _ _))
  rw [selectFrom, List.getD_eq_getElem _ _ hlt]
  have hsub : valid.take (min 3 valid.length) ⊆ valid.take 3 := by
    have : valid.take (min 3 valid.length) = (valid.take 3).take (min 3 valid.length) := by
      rw [List.take_take, min_comm (min 3 valid.length) 3,
        min_eq_right (min_le_left 3 valid.length)]
    rw [this]
    exact List.take_subset _ _
  exact hsub (List.getElem_mem _)

/-- the chosen combination is a filtered candidate. -/
theorem selectFrom_mem (valid : List (List Bet)) (r : Nat)
    (hne : valid ≠ []) : selectFrom valid r ∈ valid :=
  List.take_subset 3 valid (selectFrom_mem_take valid r hne)

/-- Every one of the first `min 3 (length)` filtered candidates is
reachable by a suitable random draw. -/
theorem selectFrom_surj (valid : List (List Bet)) (j : Nat)
    (hj : j < min 3 valid.length) :
    selectFrom valid j = valid.getD j [] := by
  have hmod : j % min 3 valid.length = j := Nat.mod_eq_of_lt hj
  have hjlen : j < valid.length := lt_of_lt_of_le hj (min_le_right _ _)
  have hlt : j < (valid.take (min 3 valid.length)).length := by
    rw [List.length_take]; exact lt_min hj hjlen
  rw [selectFrom, hmod, List.getD_eq_getElem _ _ hlt,
    List.getD_eq_getElem _ _ hjlen, List.getElem_take]

/-- The candidate sort really sorts ascending by the recorded distance. -/
theorem sortByDiff_pairwise (l : List (List Bet × Q × Q)) :
    (sortByDiff l).Pairwise (fun a b => a.2.1 ≤ b.2.1) := by
  haveI : IsTotal (List Bet × Q × Q) (fun a b => a.2.1 ≤ b.2.1) :=
    ⟨fun a b => Q.le_total _ _⟩
  haveI : IsTrans (List Bet × Q × Q) (fun a b => a.2.1 ≤ b.2.1) :=
    ⟨fun _ _ _ hab hbc => Q.le_trans hab hbc⟩
  exact List.sorted_insertionSort _ l

/-- `find_multi_combination` either returns the empty combination or the
randomized pick from the nonempty filtered candidate list. -/
theorem find_multi_fst_eq (catalog : List (String × List Bet)) (target : Q)
    (numAlternatives : Nat) (sportType : String) (entropy : List Nat)
    (timeFlags : List Bool) :
    (find_multi_combination catalog target numAlternatives sportType entropy timeFlags).1 = [] ∨
      (validSolutions catalog target numAlternatives sportType entropy timeFlags ≠ [] ∧
        ∃ r, (find_multi_combination catalog target numAlternatives sportType entropy
            timeFlags).1 =
          selectFrom (validSolutions catalog target numAlternatives sportType entropy
            timeFlags) r) := by
  rw [find_multi_combination]
  by_cases h :
      (validSolutions catalog target numAlternatives sportType entropy timeFlags).isEmpty
  · left; simp [h]
  · right
    refine ⟨fun hc => h (by simp [hc]), ?_⟩
    refine ⟨(searchOutcome catalog target numAlternatives sportType entropy
      timeFlags).entropy.headD 0, ?_⟩
    simp [h]

/-! ## C1: invariants of the returned final combination -/

/-- **C1.** For every catalog, every target odds > 0, every sport mode,
and every random (and clock) sequence: if `find_multi_combination`
returns a non-empty final combination, then no two of its legs share a
game identifier, its leg count lies between `MIN_LEGS = 2` and the
mode's ceiling (`MAX_LEGS = 8` for `"nrl"`/`"afl"`, `MAX_COMBINED_LEGS
= 17` for `"combined"`), and the relative distance of its odds product
from the target is at most 10%. -/
theorem C1_final_combination_invariants (catalog : List (String × List Bet))
    (target : Q) (numAlternatives : Nat) (sportType : String)
    (entropy : List Nat) (timeFlags : List Bool) (htarget : 0 < target) :
    let combo :=
      (find_multi_combination catalog target numAlternatives sportType entropy timeFlags).1
    combo = [] ∨
      (combo.Pairwise (fun a b => a.gameId ≠ b.gameId) ∧
        MIN_LEGS ≤ combo.length ∧
        ((sportType = "nrl" ∨ sportType = "afl") → combo.length ≤ MAX_LEGS) ∧
        (sportType = "combined" → combo.length ≤ MAX_COMBINED_LEGS) ∧
        (prodOdds combo - target).abs / target ≤ 1/10) := by
  intro combo
  have hc : combo =
      (find_multi_combination catalog target numAlternatives sportType entropy timeFlags).1 :=
    rfl
  rw [hc]
  rcases find_multi_fst_eq catalog target numAlternatives sportType entropy timeFlags with
    h | ⟨hne, r, heq⟩
  · exact Or.inl h
  · right
    rw [heq]
    have hmem : selectFrom (validSolutions catalog target numAlternatives sportType entropy
          timeFlags) r ∈
        validSolutions catalog target numAlternatives sportType entropy timeFlags :=
      selectFrom_mem _ _ hne
    rw [validSolutions] at hmem
    obtain ⟨hver, hmin, hmax, hrel⟩ := processSolutions_mem _ _ hmem
    refine ⟨(verify_one_bet_per_game_iff _).mp hver, hmin, ?_, ?_, hrel⟩
    · rintro (rfl | rfl) <;> simpa [maxLegsFor, MAX_LEGS] using hmax
    · rintro rfl; simpa [maxLegsFor, MAX_COMBINED_LEGS] using hmax

/-- Witness for C1: the target-positivity hypothesis is satisfiable (a
target of 6), and the theorem then applies to a concrete two-game
catalog. -/
theorem C1_final_combination_invariants_witness :
    0 < (6 : Q) ∧
      (let combo :=
        (find_multi_combination [("g1", [⟨"pA", "ATS", "g1", 2⟩]),
          ("g2", [⟨"pB", "ATS", "g2", 3⟩])] 6 1 "nrl" [] []).1
      combo = [] ∨
        (combo.Pairwise (fun a b => a.gameId ≠ b.gameId) ∧
          MIN_LEGS ≤ combo.length ∧
          (("nrl" = "nrl" ∨ "nrl" = "afl") → combo.length ≤ MAX_LEGS) ∧
          ("nrl" = "combined" → combo.length ≤ MAX_COMBINED_LEGS) ∧
          (prodOdds combo - 6).abs / 6 ≤ 1/10)) :=
  ⟨by decide,
    C1_final_combination_invariants [("g1", [⟨"pA", "ATS", "g1", 2⟩]),
      ("g2", [⟨"pB", "ATS", "g2", 3⟩])] 6 1 "nrl" [] [] (by decide)⟩

/-! ## C4: ranking, re-filtering and randomized top-3 selection -/

/-- **C4.** Ranking sorts the collected candidates ascending by absolute
distance from target; the filtered list keeps only candidates whose
recomputed true odds product lies within 10% relative distance of the
target and whose leg count lies in `[MIN_LEGS, maxLegs]`; when at least
one candidate remains, the returned combination is one of the first 3
(or fewer, if fewer exist) filtered candidates in distance order, and
every one of those first `min 3 _` candidates is the selection's outcome
for a suitable random draw (the draw is uniform over them). -/
theorem C4_ranking_and_selection (catalog : List (String × List Bet))
    (target : Q) (numAlternatives : Nat) (sportType : String)
    (entropy : List Nat) (timeFlags : List Bool) :
    let raw := (searchOutcome catalog target numAlternatives sportType entropy
        timeFlags).solutions
    let vs := validSolutions catalog target numAlternatives sportType entropy timeFlags
    (sortByDiff raw).Pairwise (fun a b => a.2.1 ≤ b.2.1) ∧
      (∀ sol ∈ vs, MIN_LEGS ≤ sol.length ∧ sol.length ≤ maxLegsFor sportType ∧
        (prodOdds sol - target).abs / target ≤ 1/10) ∧
      ((find_multi_combination catalog target numAlternatives sportType entropy
          timeFlags).1 = [] ∨
        (find_multi_combination catalog target numAlternatives sportType entropy
          timeFlags).1 ∈ vs.take 3) ∧
      (∀ j, j < min 3 vs.length → selectFrom vs j = vs.getD j []) := by
  intro raw vs
  refine ⟨sortByDiff_pairwise raw, ?_, ?_, ?_⟩
  · intro sol hmem
    have hc : vs =
        validSolutions catalog target numAlternatives sportType entropy timeFlags := rfl
    rw [hc, validSolutions] at hmem
    obtain ⟨-, hmin, hmax, hrel⟩ := processSolutions_mem _ _ hmem
    exact ⟨hmin, hmax, hrel⟩
  · rcases find_multi_fst_eq catalog target numAlternatives sportType entropy timeFlags with
      h | ⟨hne, r, heq⟩
    · exact Or.inl h
    · right
      rw [heq]
      exact selectFrom_mem_take _ _ hne
  · intro j hj
    exact selectFrom_surj vs j hj

/-! ## C5 and C8: the alternative finder -/

theorem insertionSort_eq_nil_iff {α : Type} {r : α → α → Prop} [DecidableRel r]
    {l : List α} : l.insertionSort r = [] ↔ l = [] := by
  constructor
  · intro h
    have hp := List.perm_insertionSort r l
    rw [h] at hp
    exact hp.symm.eq_nil
  · intro h; rw [h]; rfl

/-- **C5.** For a position `i` of the combination holding bet `b` (in
game `b.gameId`), a bet of that game is accepted as an alternative
exactly when its `playerId`+`market` differs from `b`'s and its odds
divided by `required = target / (total / b.odds)` lies in `[0.8, 1.2]`;
every accepted entry is taken from game `g`'s bets (hence, in a catalog
whose group `g` carries game identifier `g` — which the loader
guarantees — from game `g`), and is annotated with `expectedMultiOdds =
(total / b.odds) * altOdds` and `expectedDiff = |expectedMultiOdds -
target|`. -/
theorem C5_position_alternative_acceptance (main : List Bet)
    (catalog : List (String × List Bet)) (target : Q) (i : Nat) (b : Bet)
    (hpos : (i, b) ∈ main.enum)
    (hwf : ∀ bb ∈ lookupGame catalog b.gameId, bb.gameId = b.gameId) :
    ∀ e : AltEntry,
      e ∈ positionAlternatives catalog target (prodOdds main) b ↔
        (e.bet ∈ lookupGame catalog b.gameId ∧ e.bet.gameId = b.gameId ∧
          ¬(e.bet.playerId = b.playerId ∧ e.bet.market = b.market) ∧
          (4 : Q)/5 ≤ e.bet.odds / (target / (prodOdds main / b.odds)) ∧
          e.bet.odds / (target / (prodOdds main / b.odds)) ≤ (6 : Q)/5 ∧
          e.expectedMultiOdds = (prodOdds main / b.odds) * e.bet.odds ∧
          e.expectedDiff = ((prodOdds main / b.odds) * e.bet.odds - target).abs) := by
  intro e
  rw [positionAlternatives]
  simp only [List.mem_map, List.mem_filter, Bool.and_eq_true, decide_eq_true_eq]
  constructor
  · rintro ⟨a, ⟨ha, ⟨hne, h45⟩, h65⟩, rfl⟩
    exact ⟨ha, hwf a ha, hne, h45, h65, rfl, rfl⟩
  · rintro ⟨ha, -, hne, h45, h65, hemo, hed⟩
    refine ⟨e.bet, ⟨ha, ⟨hne, h45⟩, h65⟩, ?_⟩
    cases e with
    | mk bet emo ed =>
      simp only at hemo hed ⊢
      rw [hemo, hed]

/-- **C8.** Every per-position alternative list in the result mapping is
sorted ascending by `expectedDiff` and has at most
`MAX_PLAYER_ALTERNATIVES = 3` entries; a position appears in the mapping
exactly when at least one alternative passed the ratio band (so a
position with none is simply absent — no empty list, no error). -/
theorem C8_alternatives_shape (main : List Bet)
    (catalog : List (String × List Bet)) (target : Q) :
    (∀ pr ∈ find_player_alternatives main catalog target,
        pr.2.length ≤ MAX_PLAYER_ALTERNATIVES ∧ pr.2 ≠ [] ∧
        pr.2.Pairwise (fun x y => x.expectedDiff ≤ y.expectedDiff)) ∧
      ∀ i b, (i, b) ∈ main.enum →
        ((∃ l, (i, l) ∈ find_player_alternatives main catalog target) ↔
          positionAlternatives catalog target (prodOdds main) b ≠ []) := by
  constructor
  · intro pr hpr
    rw [find_player_alternatives] at hpr
    simp only [List.mem_filterMap] at hpr
    obtain ⟨ib, hib, hf⟩ := hpr
    split at hf
    · cases hf
    · next hempty =>
      obtain rfl := Option.some.inj hf
      have hsorted :
          ((positionAlternatives catalog target (prodOdds main) ib.2).insertionSort
            (fun x y => x.expectedDiff ≤ y.expectedDiff)).Pairwise
            (fun x y => x.expectedDiff ≤ y.expectedDiff) := by
        haveI : IsTotal AltEntry (fun x y => x.expectedDiff ≤ y.expectedDiff) :=
          ⟨fun a b => Q.le_total _ _⟩
        haveI : IsTrans AltEntry (fun x y => x.expectedDiff ≤ y.expectedDiff) :=
          ⟨fun _ _ _ hab hbc => Q.le_trans hab hbc⟩
        exact List.sorted_insertionSort _ _
      refine ⟨List.length_take_le _ _, ?_,
        List.Pairwise.sublist (List.take_sublist _ _) hsorted⟩
      rw [Ne, List.take_eq_nil_iff]
      rintro (h3 | hnil)
      · exact absurd h3 (by rw [MAX_PLAYER_ALTERNATIVES]; omega)
      · rw [hnil] at hempty; exact hempty rfl
  · intro i b hib
    constructor
    · rintro ⟨l, hl⟩
      rw [find_player_alternatives] at hl
      simp only [List.mem_filterMap] at hl
      obtain ⟨⟨i', b'⟩, hib', hf⟩ := hl
      split at hf
      · cases hf
      · next hempty =>
        obtain hpair := Option.some.inj hf
        have hi' : i' = i := congrArg Prod.fst hpair
        subst hi'
        have h1 := List.mem_enum hib'
        have h2 := List.mem_enum hib
        have hbb : b' = b := by
          rw [h1.2, h2.2]
        subst hbb
        intro hnil
        rw [hnil] at hempty
        exact hempty rfl
    · intro hpa
      refine ⟨((positionAlternatives catalog target (prodOdds main) b).insertionSort
          (fun x y => x.expectedDiff ≤ y.expectedDiff)).take MAX_PLAYER_ALTERNATIVES, ?_⟩
      rw [find_player_alternatives]
      simp only [List.mem_filterMap]
      refine ⟨(i, b), hib, ?_⟩
      rw [if_neg]
      simp only [List.isEmpty_iff, insertionSort_eq_nil_iff]
      exact hpa

/-! ## C7: requests with non-positive target never reach the search -/

/-- **C7.** Whenever the handler's validation gate lets a request
through to the search core, the derived target odds is positive: a
request whose derived target would be ≤ 0 (non-positive stake, or win
not exceeding stake) is rejected as a client error before the search
starts. -/
theorem C7_gate_implies_positive_target (stake winAmount t : Q)
    (h : generate_multi_gate stake winAmount = some t) : 0 < t := by
  rw [generate_multi_gate] at h
  split at h
  · cases h
  · next hcond =>
    split at h
    · cases h
    · obtain rfl := Option.some.inj h
      push_neg at hcond
      obtain ⟨hstake, hwin⟩ := hcond
      have hsd : (0 : Int) < stake.den := Int.natCast_pos.mpr stake.den_pos
      have hwd : (0 : Int) < winAmount.den := Int.natCast_pos.mpr winAmount.den_pos
      have hs : 0 < stake.num := by
        by_contra hns
        exact hstake (Q.le_zero_iff.mpr (by omega))
      have hlt : stake.num * (winAmount.den : Int) < winAmount.num * (stake.den : Int) :=
        Int.not_le.mp (fun hle => hwin (Q.le_def.mpr hle))
      have hprod : (0 : Int) < winAmount.num * (stake.den : Int) :=
        lt_trans (mul_pos hs hwd) hlt
      have hwnum : 0 < winAmount.num := by
        rcases mul_pos_iff.mp hprod with ⟨h1, -⟩ | ⟨-, h2⟩
        · exact h1
        · exact absurd hsd (not_lt.mpr h2.le)
      rw [Q.zero_lt_iff]
      show 0 < winAmount.num * (Q.inv stake).num
      have hinv : (Q.inv stake).num = (stake.den : Int) := by
        rw [Q.inv, dif_neg (by omega : ¬stake.num = 0)]
        rw [if_pos hs]
      rw [hinv]
      exact mul_pos hwnum hsd

/-- Witness for C7: the gate passes a stake of 1 and a win of 6,
deriving a target of 6, which is positive. -/
theorem C7_gate_implies_positive_target_witness :
    generate_multi_gate 1 6 = some ((6 : Q) / 1) ∧ 0 < ((6 : Q) / 1) :=
  ⟨by decide, C7_gate_implies_positive_target 1 6 ((6 : Q) / 1) (by decide)⟩

/-! ## C9: empty catalog and empty filter results are empty outcomes -/

/-- With no games left and no legs selected, the search only polls the
clock: it accepts nothing and recurses no further. -/
theorem backtrack_nil_empty_sel (p : SearchParams) (prod : Q) (st : SearchState) :
    backtrack p [] prod [] st = drawClock st := by
  rw [backtrack]
  simp [MIN_LEGS]

/-- **C9.** For every target odds > 0 (and any parameters and random
sequences), a call on an empty catalog returns the empty result, and so
does any call in which no candidate survives the final filters; the
model is a total function, so no exception leaves the core on these
paths. -/
theorem C9_empty_results (target : Q) (numAlternatives : Nat)
    (sportType : String) (entropy : List Nat) (timeFlags : List Bool)
    (htarget : 0 < target) :
    find_multi_combination [] target numAlternatives sportType entropy timeFlags =
        ([], []) ∧
      ∀ catalog, validSolutions catalog target numAlternatives sportType entropy
          timeFlags = [] →
        find_multi_combination catalog target numAlternatives sportType entropy
          timeFlags = ([], []) := by
  constructor
  · have hvs : validSolutions [] target numAlternatives sportType entropy timeFlags = [] := by
      rw [validSolutions, searchOutcome]
      rw [show shuffle entropy (([] : List (String × List Bet)).map Prod.fst) =
        ([], entropy) from rfl]
      rw [backtrack_nil_empty_sel]
      simp [sortByDiff, drawClock, processSolutions]
    simp only [find_multi_combination, hvs]
    rfl
  · intro catalog hvs
    simp only [find_multi_combination, hvs]
    rfl

/-- Witness for C9: positivity holds for the concrete target 6, and the
empty catalog then yields the empty result. -/
theorem C9_empty_results_witness :
    0 < (6 : Q) ∧
      find_multi_combination [] 6 1 "nrl" [] [] = ([], []) :=
  ⟨by decide, (C9_empty_results 6 1 "nrl" [] [] (by decide)).1⟩

/-! ## C3 and C6: acceptance and pruning at a search node -/

/-- When neither the flag is set nor the clock oracle fires, polling the
clock only consumes one tick. -/
theorem drawClock_calm {st : SearchState} (hflag : st.timeLimitExceeded = false)
    (htick : st.timeFlags.headD false = false) :
    drawClock st = { st with timeFlags := st.timeFlags.tail } := by
  rw [drawClock, hflag, htick]
  rfl

/-- **C3.** At a search node where no earlier termination check fires
(clock not expired, raw-candidate cap not reached, leg ceiling
respected) and whose selection passes the one-bet-per-game check (as
every selection the search builds does): (a) a partial selection with at
least `MIN_LEGS = 2` legs whose running product is within the absolute
tolerance `ODDS_TOLERANCE = 0.01` of the target is accepted immediately
as a candidate and the branch terminates — the returned state carries
exactly that one new solution and no new trace events, so no further
legs are appended; (b) when the game list is exhausted without the
tight tolerance hitting, a selection of at least `MIN_LEGS` legs is
accepted exactly when its relative distance from target is at most
`0.2`. -/
theorem C3_acceptance_at_node (p : SearchParams) (remaining : List String)
    (prod : Q) (sel : List Bet) (st0 : SearchState)
    (hflag : st0.timeLimitExceeded = false)
    (htick : st0.timeFlags.headD false = false)
    (hcap : st0.solutionsFound < p.cap)
    (hlegs : sel.length ≤ p.maxLegs)
    (hver : verify_one_bet_per_game sel = true)
    (hmin : MIN_LEGS ≤ sel.length) :
    ((prod - p.target).abs ≤ ODDS_TOLERANCE →
      backtrack p remaining prod sel st0 =
        { st0 with timeFlags := st0.timeFlags.tail,
                   solutions := st0.solutions ++ [(sel, (prod - p.target).abs, prod)],
                   solutionsFound := st0.solutionsFound + 1 }) ∧
    (¬(prod - p.target).abs ≤ ODDS_TOLERANCE →
      backtrack p [] prod sel st0 =
        if (prod - p.target).abs / p.target ≤ 1/5 then
          { st0 with timeFlags := st0.timeFlags.tail,
                     solutions := st0.solutions ++ [(sel, (prod - p.target).abs, prod)],
                     solutionsFound := st0.solutionsFound + 1 }
        else { st0 with timeFlags := st0.timeFlags.tail }) := by
  have hdc := drawClock_calm hflag htick
  constructor
  · intro htol
    rw [backtrack.eq_def]
    simp only [hdc]
    rw [if_neg (by simp [hflag]), if_neg (by simp; omega),
      if_neg (by simp; omega), if_pos ⟨hmin, htol⟩, if_pos (by simpa using hver)]
  · intro htol
    rw [backtrack.eq_def]
    simp only [hdc]
    rw [if_neg (by simp [hflag]), if_neg (by simp; omega),
      if_neg (by simp; omega), if_neg (fun hc => htol hc.2)]
    by_cases hrel : (prod - p.target).abs / p.target ≤ 1/5
    · rw [if_pos ⟨hmin, by simpa using hver, hrel⟩, if_pos hrel]
    · rw [if_neg (fun hc => hrel hc.2.2), if_neg hrel]

/-- Witness for C3: at a concrete node (two verified legs, product 6,
target 6) the tight branch accepts with a game still remaining; at the
end of the games (product 7, target 6, relative distance 1/6 ≤ 0.2) the
fallback branch applies. -/
theorem C3_acceptance_at_node_witness :
    (backtrack ⟨[], 6, 2, 8⟩ ["g3"] 6
        [⟨"pA", "ATS", "g1", 2⟩, ⟨"pB", "ATS", "g2", 3⟩]
        ⟨[], [], false, [], 0, []⟩ =
      { (⟨[], [], false, [], 0, []⟩ : SearchState) with
          timeFlags := ([] : List Bool).tail,
          solutions := [] ++ [([⟨"pA", "ATS", "g1", 2⟩, ⟨"pB", "ATS", "g2", 3⟩],
            ((6 : Q) - 6).abs, 6)],
          solutionsFound := 0 + 1 }) ∧
    (backtrack ⟨[], 6, 2, 8⟩ [] 7
        [⟨"pA", "ATS", "g1", 2⟩, ⟨"pB", "ATS", "g2", 3⟩]
        ⟨[], [], false, [], 0, []⟩ =
      if ((7 : Q) - 6).abs / 6 ≤ 1/5 then
        { (⟨[], [], false, [], 0, []⟩ : SearchState) with
            timeFlags := ([] : List Bool).tail,
            solutions := [] ++ [([⟨"pA", "ATS", "g1", 2⟩, ⟨"pB", "ATS", "g2", 3⟩],
              ((7 : Q) - 6).abs, 7)],
            solutionsFound := 0 + 1 }
      else { (⟨[], [], false, [], 0, []⟩ : SearchState) with
          timeFlags := ([] : List Bool).tail }) :=
  ⟨(C3_acceptance_at_node ⟨[], 6, 2, 8⟩ ["g3"] 6
      [⟨"pA", "ATS", "g1", 2⟩, ⟨"pB", "ATS", "g2", 3⟩] ⟨[], [], false, [], 0, []⟩
      rfl rfl (by decide) (by decide) (by decide) (by decide)).1 (by decide),
    (C3_acceptance_at_node ⟨[], 6, 2, 8⟩ [] 7
      [⟨"pA", "ATS", "g1", 2⟩, ⟨"pB", "ATS", "g2", 3⟩] ⟨[], [], false, [], 0, []⟩
      rfl rfl (by decide) (by decide) (by decide) (by decide)).2 (by decide)⟩

/-- **C6.** At a search node with games remaining where no earlier
termination check fires and the tight acceptance does not hit: (a) when
the target exceeds 50 and even granting every remaining game an
optimistic odds contribution of 5.0 the product cannot reach half the
target, the branch is abandoned (the state comes back with the clock
polled and nothing else changed — no solution, no trace event, no
recursion); (b) the branch is likewise abandoned whenever the running
product exceeds the (positive) target by more than 10%. -/
theorem C6_pruning_at_node (p : SearchParams) (g : String) (rest : List String)
    (prod : Q) (sel : List Bet) (st0 : SearchState)
    (hflag : st0.timeLimitExceeded = false)
    (htick : st0.timeFlags.headD false = false)
    (hcap : st0.solutionsFound < p.cap)
    (hlegs : sel.length ≤ p.maxLegs)
    (hnoacc : ¬(MIN_LEGS ≤ sel.length ∧ (prod - p.target).abs ≤ ODDS_TOLERANCE)) :
    ((50 : Q) < p.target ∧ prod * (5 : Q) ^ (rest.length + 1) < p.target * (1/2) →
      backtrack p (g :: rest) prod sel st0 =
        { st0 with timeFlags := st0.timeFlags.tail }) ∧
    (p.target * (11/10) < prod ∧ 0 < p.target →
      backtrack p (g :: rest) prod sel st0 =
        { st0 with timeFlags := st0.timeFlags.tail }) := by
  have hdc := drawClock_calm hflag htick
  constructor
  · intro hprune
    rw [backtrack.eq_def]
    simp only [hdc]
    rw [if_neg (by simp [hflag]), if_neg (by simp; omega),
      if_neg (by simp; omega), if_neg hnoacc]
    rw [if_pos hprune]
  · intro hover
    rw [backtrack.eq_def]
    simp only [hdc]
    rw [if_neg (by simp [hflag]), if_neg (by simp; omega),
      if_neg (by simp; omega), if_neg hnoacc]
    by_cases hprune : (50 : Q) < p.target ∧
        prod * (5 : Q) ^ (rest.length + 1) < p.target * (1/2)
    · rw [if_pos hprune]
    · rw [if_neg hprune, if_pos hover]

/-- Witness for C6: with target 60 and product 1 the large-target bound
prunes (5 < 30); with target 6 and product 7 the overshoot bound prunes
(6.6 < 7). -/
theorem C6_pruning_at_node_witness :
    (backtrack ⟨[], 60, 2, 8⟩ ["g1"] 1 [] ⟨[], [], false, [], 0, []⟩ =
      { (⟨[], [], false, [], 0, []⟩ : SearchState) with
          timeFlags := ([] : List Bool).tail }) ∧
    (backtrack ⟨[], 6, 2, 8⟩ ["g1"] 7 [] ⟨[], [], false, [], 0, []⟩ =
      { (⟨[], [], false, [], 0, []⟩ : SearchState) with
          timeFlags := ([] : List Bool).tail }) :=
  ⟨(C6_pruning_at_node ⟨[], 60, 2, 8⟩ "g1" [] 1 [] ⟨[], [], false, [], 0, []⟩
      rfl rfl (by decide) (by decide) (by decide)).1 (by decide),
    (C6_pruning_at_node ⟨[], 6, 2, 8⟩ "g1" [] 7 [] ⟨[], [], false, [], 0, []⟩
      rfl rfl (by decide) (by decide) (by decide)).2 (by decide)⟩

/-! ## C2: branch exploration at a game node

The spec claims that at every game position reached without a
termination or pruning condition firing, *both* branches — skipping the
game, and trying each of its bets — are explored, in randomized order.
The source (`logic.py` lines 140-153) explores the skip branch only when
`random.random() < 0.5`, and when it does, the skip branch always comes
first; the bets branch is always explored (subject to the termination
checks).  The counterexample below exhibits a run in which a game node
is reached and its bet tried but the skip branch is never explored. -/

/-- **C2 is false as stated**: it is not the case that whenever a game
node is reached (a `visit` event recorded), the skip branch is explored
(a `skip` event recorded).  Concretely, with one game and entropy
`[0, 1]` (shuffle draw 0, then an odd coin draw, i.e. `random.random()
≥ 0.5`), the node for `"g1"` is visited and its bet tried, but no skip
event for `"g1"` ever occurs. -/
theorem C2_counterexample :
    ¬ ∀ (catalog : List (String × List Bet)) (target : Q) (numAlternatives : Nat)
        (sportType : String) (entropy : List Nat) (timeFlags : List Bool) (g : String),
        TraceEv.visit g ∈ (searchOutcome catalog target numAlternatives sportType
            entropy timeFlags).trace →
          TraceEv.skip g ∈ (searchOutcome catalog target numAlternatives sportType
            entropy timeFlags).trace := by
  intro h
  have hg := h [("g1", [⟨"pA", "ATS", "g1", 2⟩])] 6 1 "nrl" [0, 1] [] "g1" (by decide)
  exact absurd hg (by decide)

/-- One unfolding of `backtrack` at a game node none of whose entry
checks, acceptance tests or pruning conditions fire: the skip branch is
taken first exactly when the entropy draw is even, and the bets loop
always follows (subject to the termination checks). -/
theorem backtrack_cons_eq (p : SearchParams) (g : String)
    (rest : List String) (prod : Q) (sel : List Bet) (st0 : SearchState)
    (hflag : st0.timeLimitExceeded = false)
    (htick : st0.timeFlags.headD false = false)
    (hcap : st0.solutionsFound < p.cap)
    (hlegs : sel.length ≤ p.maxLegs)
    (hnoacc : ¬(MIN_LEGS ≤ sel.length ∧ (prod - p.target).abs ≤ ODDS_TOLERANCE))
    (hnoprune : ¬((50 : Q) < p.target ∧
        prod * (5 : Q) ^ (rest.length + 1) < p.target * (1/2)))
    (hnoover : ¬(p.target * (11/10) < prod ∧ 0 < p.target)) :
    ((st0.entropy.headD 0) % 2 = 0 →
      backtrack p (g :: rest) prod sel st0 =
        (let st3 := backtrack p rest prod sel
            { st0 with timeFlags := st0.timeFlags.tail,
                       entropy := st0.entropy.tail,
                       trace := TraceEv.skip g :: TraceEv.visit g :: st0.trace };
         if stopNow p st3 then st3
         else tryBets p (fun pr se s => backtrack p rest pr se s) g
           (shuffle st3.entropy (lookupGame p.catalog g)).1 prod sel
           { st3 with entropy := (shuffle st3.entropy (lookupGame p.catalog g)).2 })) ∧
    ((st0.entropy.headD 0) % 2 ≠ 0 →
      backtrack p (g :: rest) prod sel st0 =
        tryBets p (fun pr se s => backtrack p rest pr se s) g
          (shuffle st0.entropy.tail (lookupGame p.catalog g)).1 prod sel
          { st0 with timeFlags := st0.timeFlags.tail,
                     entropy := (shuffle st0.entropy.tail (lookupGame p.catalog g)).2,
                     trace := TraceEv.visit g :: st0.trace }) := by
  have hdc := drawClock_calm hflag htick
  constructor
  · intro hcoin
    have hc : (st0.entropy.headD 0 % 2 == 0) = true := beq_iff_eq.mpr hcoin
    rw [backtrack.eq_def]
    simp only [hdc]
    rw [if_neg (by simp [hflag]), if_neg (by simp; omega),
      if_neg (by simp; omega), if_neg hnoacc, if_neg hnoprune, if_neg hnoover, hc,
      if_pos rfl]
  · intro hcoin
    have hc : (st0.entropy.headD 0 % 2 == 0) = false := beq_eq_false_iff_ne.mpr hcoin
    have hsn : stopNow p
        ⟨st0.entropy.tail, st0.timeFlags.tail, st0.timeLimitExceeded,
          st0.solutions, st0.solutionsFound, TraceEv.visit g :: st0.trace⟩ = false := by
      simp only [stopNow, hflag, Bool.false_or, decide_eq_false_iff_not]
      omega
    rw [backtrack.eq_def]
    simp only [hdc]
    rw [if_neg (by simp [hflag]), if_neg (by simp; omega),
      if_neg (by simp; omega), if_neg hnoacc, if_neg hnoprune, if_neg hnoover, hc,
      if_neg Bool.false_ne_true, hsn, if_neg Bool.false_ne_true]

/-- **C2 (amended).** At a game position reached without a termination
or pruning condition firing, the bets branch is always explored (each of
the game's bets in shuffled order, subject to the termination checks),
while the skip branch is explored — always before the bets, not in
randomized order — exactly when the node's random draw is below 0.5
(modelled as an even entropy draw). -/
theorem C2_branch_exploration (p : SearchParams) (g : String)
    (rest : List String) (prod : Q) (sel : List Bet) (st0 : SearchState)
    (hflag : st0.timeLimitExceeded = false)
    (htick : st0.timeFlags.headD false = false)
    (hcap : st0.solutionsFound < p.cap)
    (hlegs : sel.length ≤ p.maxLegs)
    (hnoacc : ¬(MIN_LEGS ≤ sel.length ∧ (prod - p.target).abs ≤ ODDS_TOLERANCE))
    (hnoprune : ¬((50 : Q) < p.target ∧
        prod * (5 : Q) ^ (rest.length + 1) < p.target * (1/2)))
    (hnoover : ¬(p.target * (11/10) < prod ∧ 0 < p.target)) :
    ((st0.entropy.headD 0) % 2 = 0 →
      backtrack p (g :: rest) prod sel st0 =
        (let st3 := backtrack p rest prod sel
            { st0 with timeFlags := st0.timeFlags.tail,
                       entropy := st0.entropy.tail,
                       trace := TraceEv.skip g :: TraceEv.visit g :: st0.trace };
         if stopNow p st3 then st3
         else tryBets p (fun pr se s => backtrack p rest pr se s) g
           (shuffle st3.entropy (lookupGame p.catalog g)).1 prod sel
           { st3 with entropy := (shuffle st3.entropy (lookupGame p.catalog g)).2 })) ∧
    ((st0.entropy.headD 0) % 2 ≠ 0 →
      backtrack p (g :: rest) prod sel st0 =
        tryBets p (fun pr se s => backtrack p rest pr se s) g
          (shuffle st0.entropy.tail (lookupGame p.catalog g)).1 prod sel
          { st0 with timeFlags := st0.timeFlags.tail,
                     entropy := (shuffle st0.entropy.tail (lookupGame p.catalog g)).2,
                     trace := TraceEv.visit g :: st0.trace }) :=
  backtrack_cons_eq p g rest prod sel st0 hflag htick hcap hlegs hnoacc hnoprune hnoover

/-- Witness for C2 (amended): a concrete node whose entropy draw is odd
(`random.random() ≥ 0.5`), so only the bets branch is explored. -/
theorem C2_branch_exploration_witness :
    backtrack ⟨[("g1", [⟨"pA", "ATS", "g1", 2⟩])], 6, 2, 8⟩ ["g1"] 1 []
        ⟨[1], [], false, [], 0, []⟩ =
      tryBets ⟨[("g1", [⟨"pA", "ATS", "g1", 2⟩])], 6, 2, 8⟩
        (fun pr se s =>
          backtrack ⟨[("g1", [⟨"pA", "ATS", "g1", 2⟩])], 6, 2, 8⟩ [] pr se s) "g1"
        (shuffle ([1] : List Nat).tail
          (lookupGame [("g1", [⟨"pA", "ATS", "g1", 2⟩])] "g1")).1 1 []
        { (⟨[1], [], false, [], 0, []⟩ : SearchState) with
            timeFlags := ([] : List Bool).tail,
            entropy := (shuffle ([1] : List Nat).tail
              (lookupGame [("g1", [⟨"pA", "ATS", "g1", 2⟩])] "g1")).2,
            trace := [TraceEv.visit "g1"] } :=
  (C2_branch_exploration ⟨[("g1", [⟨"pA", "ATS", "g1", 2⟩])], 6, 2, 8⟩ "g1" [] 1 []
    ⟨[1], [], false, [], 0, []⟩ rfl rfl (by decide) (by decide) (by decide)
    (by decide) (by decide)).2 (by decide)

/-! ## C10: the defensive repair is dead code -/

theorem tryBets_preserves (p : SearchParams)
    (recur : Q → List Bet → SearchState → SearchState) (g : String)
    (hrec : ∀ pr se s, solsVerified s → solsVerified (recur pr se s)) :
    ∀ (bets : List Bet) (prod : Q) (sel : List Bet) (st : SearchState),
      solsVerified st → solsVerified (tryBets p recur g bets prod sel st) := by
  intro bets
  induction bets with
  | nil => intro prod sel st h; rw [tryBets]; exact h
  | cons b bs ih =>
    intro prod sel st h
    rw [tryBets]
    split
    · exact h
    · split
      · exact ih prod sel st h
      · exact ih prod sel _ (hrec _ _ _ h)

theorem backtrack_preserves (p : SearchParams) :
    ∀ (remaining : List String) (prod : Q) (sel : List Bet) (st : SearchState),
      solsVerified st → solsVerified (backtrack p remaining prod sel st) := by
  intro remaining
  induction remaining with
  | nil =>
    intro prod sel st h
    rw [backtrack.eq_def]
    dsimp only
    split
    · exact h
    · split
      · exact h
      · split
        · exact h
        · split
          · split
            · next hacc _ =>
              intro s hs
              rcases List.mem_append.mp hs with hs' | hs'
              · exact h s hs'
              · rw [List.mem_singleton.mp hs']
                next hver => exact hver
            · exact h
          · split
            · next hcond =>
              intro s hs
              rcases List.mem_append.mp hs with hs' | hs'
              · exact h s hs'
              · rw [List.mem_singleton.mp hs']
                exact hcond.2.1
            · exact h
  | cons g rest ih =>
    intro prod sel st h
    rw [backtrack.eq_def]
    dsimp only
    split
    · exact h
    · split
      · exact h
      · split
        · exact h
        · split
          · split
            · next hacc _ =>
              intro s hs
              rcases List.mem_append.mp hs with hs' | hs'
              · exact h s hs'
              · rw [List.mem_singleton.mp hs']
                next hver => exact hver
            · exact h
          · split
            · exact h
            · split
              · exact h
              · have h3 : ∀ st3 : SearchState, solsVerified st3 →
                    solsVerified (if stopNow p st3 then st3
                      else tryBets p (fun pr se s => backtrack p rest pr se s) g
                        (shuffle st3.entropy (lookupGame p.catalog g)).1 prod sel
                        { st3 with
                          entropy := (shuffle st3.entropy (lookupGame p.catalog g)).2 }) := by
                  intro st3 h3v
                  split
                  · exact h3v
                  · exact tryBets_preserves p _ g (fun pr se s hs => ih pr se s hs)
                      _ prod sel _ h3v
                split
                · exact h3 _ (ih _ _ _ h)
                · exact h3 _ h

/-- **C10.** Every solution the backtracking search ever appends already
passes the one-bet-per-game verification (both acceptance sites guard on
it, and the accepted snapshot `list(current_selection)` is never mutated
afterwards — in this embedding lists are immutable values); consequently
the repair branch of the processing loop is unreachable: for every input
catalog, target and random/clock sequence, removing the call to
`fix_multi_bets_same_game` changes nothing. -/
theorem C10_repair_branch_unreachable (catalog : List (String × List Bet))
    (target : Q) (numAlternatives : Nat) (sportType : String)
    (entropy : List Nat) (timeFlags : List Bool) :
    ((searchOutcome catalog target numAlternatives sportType entropy
        timeFlags).solutions.all (fun s => verify_one_bet_per_game s.1)) = true ∧
      processSolutions target (maxLegsFor sportType)
          ((sortByDiff (searchOutcome catalog target numAlternatives sportType entropy
            timeFlags).solutions).take (numAlternatives * 2)) =
        processSolutionsNoRepair target (maxLegsFor sportType)
          ((sortByDiff (searchOutcome catalog target numAlternatives sportType entropy
            timeFlags).solutions).take (numAlternatives * 2)) := by
  have hverified : solsVerified (searchOutcome catalog target numAlternatives sportType
      entropy timeFlags) := by
    rw [searchOutcome]
    exact backtrack_preserves _ _ _ _ _ (by intro s hs; cases hs)
  constructor
  · rw [List.all_eq_true]
    intro s hs
    exact hverified s hs
  · have hmem : ∀ s ∈ (sortByDiff (searchOutcome catalog target numAlternatives sportType
        entropy timeFlags).solutions).take (numAlternatives * 2),
        verify_one_bet_per_game s.1 = true := by
      intro s hs
      have hs2 := List.take_subset _ _ hs
      rw [sortByDiff] at hs2
      exact hverified s ((List.perm_insertionSort _ _).mem_iff.mp hs2)
    generalize hL : (sortByDiff (searchOutcome catalog target numAlternatives sportType
      entropy timeFlags).solutions).take (numAlternatives * 2) = L at hmem ⊢
    clear hL
    induction L with
    | nil => rfl
    | cons hd tl ih =>
      obtain ⟨s, d, pr⟩ := hd
      have hv : verify_one_bet_per_game s = true := hmem (s, d, pr) (by simp)
      rw [processSolutions, processSolutionsNoRepair, if_pos hv]
      have ih' := ih (fun x hx => hmem x (List.mem_cons_of_mem _ hx))
      split
      · rw [ih']
      · exact ih'

/-- Witness for C5: in a one-game catalog holding the chosen leg (odds
2) and one other bet (odds 2.1), with target 2, the hypotheses hold and
the acceptance characterization applies to the annotated entry for the
other bet. -/
theorem C5_position_alternative_acceptance_witness :
    ((0, betA) ∈ ([betA] : List Bet).enum) ∧
    (∀ bb ∈ lookupGame catAX betA.gameId, bb.gameId = betA.gameId) ∧
    ((⟨betX, (prodOdds [betA] / betA.odds) * betX.odds,
        ((prodOdds [betA] / betA.odds) * betX.odds - 2).abs⟩ : AltEntry) ∈
        positionAlternatives catAX 2 (prodOdds [betA]) betA ↔
      (betX ∈ lookupGame catAX betA.gameId ∧ betX.gameId = betA.gameId ∧
        ¬(betX.playerId = betA.playerId ∧ betX.market = betA.market) ∧
        (4 : Q)/5 ≤ betX.odds / ((2 : Q) / (prodOdds [betA] / betA.odds)) ∧
        betX.odds / ((2 : Q) / (prodOdds [betA] / betA.odds)) ≤ (6 : Q)/5 ∧
        (prodOdds [betA] / betA.odds) * betX.odds =
          (prodOdds [betA] / betA.odds) * betX.odds ∧
        ((prodOdds [betA] / betA.odds) * betX.odds - 2).abs =
          ((prodOdds [betA] / betA.odds) * betX.odds - 2).abs)) :=
  ⟨by decide, by decide,
    C5_position_alternative_acceptance [betA] catAX 2 0 betA (by decide) (by decide)
      ⟨betX, (prodOdds [betA] / betA.odds) * betX.odds,
        ((prodOdds [betA] / betA.odds) * betX.odds - 2).abs⟩⟩

/-! ## Non-vacuity: the spec's discoverability scenario

A two-game catalog with odds 2 and 3 and target 6: the pipeline finds
and returns the 2-leg combination with product exactly 6 (for the empty
entropy and clock streams, under which every shuffle is the identity and
every coin explores the skip branch first).  This shows the non-empty
branches of the C1/C4 theorems are realisable. -/

set_option maxHeartbeats 4000000 in
theorem scenario_two_games_finds_combination :
    (find_multi_combination cat2demo 6 1 "nrl" [] []).1 = [betA, betB] := by
  have h1 := (backtrack_cons_eq ⟨cat2demo, 6, 2, 8⟩ "g1" ["g2"] 1 []
      ⟨[], [], false, [], 0, []⟩ rfl rfl (by decide) (by decide) (by decide)
      (by decide) (by decide)).1 (by decide)
  have htop : backtrack ⟨cat2demo, 6, 2, 8⟩ ["g1", "g2"] 1 []
      ⟨[], [], false, [], 0, []⟩ =
      ⟨[], [], false, [([betA, betB], 0, 6)], 1,
        [TraceEv.tryBet "g2" betB, TraceEv.skip "g2", TraceEv.visit "g2",
         TraceEv.tryBet "g1" betA, TraceEv.tryBet "g2" betB, TraceEv.skip "g2",
         TraceEv.visit "g2", TraceEv.skip "g1", TraceEv.visit "g1"]⟩ := by
    rw [h1]
    decide
  have hso : searchOutcome cat2demo 6 1 "nrl" [] [] =
      ⟨[], [], false, [([betA, betB], 0, 6)], 1,
        [TraceEv.tryBet "g2" betB, TraceEv.skip "g2", TraceEv.visit "g2",
         TraceEv.tryBet "g1" betA, TraceEv.tryBet "g2" betB, TraceEv.skip "g2",
         TraceEv.visit "g2", TraceEv.skip "g1", TraceEv.visit "g1"]⟩ := by
    rw [searchOutcome]
    exact htop
  have hvs : validSolutions cat2demo 6 1 "nrl" [] [] = [[betA, betB]] := by
    rw [validSolutions, hso]
    decide
  simp only [find_multi_combination, hvs, hso]
  decide
